import Mathlib

/-!
Verification of the event-stream progress reducer (`cmd/sst/progress.go`).

Modelling conventions (shallow embedding):
* Go strings are Lean `String`s; the handful of `strings.*` and `regexp`
  operations the source uses are implemented character-by-character below with
  Go semantics (`strings.Split` with a nonempty separator, `strings.TrimSpace`,
  `strings.HasPrefix`, `strings.Join`, `strings.TrimRight`, and the literal
  regular expressions of `formatURN`).
* Instants (`time.Time`) are `Int` nanosecond values; the zero value of
  `time.Time` is the instant `0`, which is what a missing entry of the Go map
  `timing` yields.  `time.Since t = now - t`, saturating at the `time.Duration`
  bounds exactly as `time.Time.Sub` documents, and `Duration.Round` is
  translated as `durationRound`.
* Go maps are Lean functions with the Go zero value as default (`dedupe`,
  `timing`) or association lists (`pending`, `outputs`).
* The terminal renderer and the spinner are collaborators: a rendered line is
  recorded as an `OutLine` (the argument of the corresponding write), and the
  spinner is the `suffix` / `spinActive` / `spinEnabled` fields of the state.
* The event channel is a `List TimedEvent`, each event paired with the value
  `time.Now()` would return while it is processed.  Per the documented input
  invariant, exactly one variant of the Go event struct is populated per
  delivered event, so events form the inductive type `Event`.
* Fallible code returns `Option`: `formatURN` returns `none` on the inputs
  where the Go function panics (slice/index out of range).
-/

namespace IonProgress

/-- Go `unicode.IsSpace` restricted to the Latin-1 code points it accepts:
space, tab, newline, vertical tab, form feed, carriage return, NEL, NBSP. -/
def isGoSpace (c : Char) : Bool :=
  c = ' ' || c = '\t' || c = '\n' || c = '\x0b' || c = '\x0c' || c = '\r' ||
  c.val == 0x85 || c.val == 0xA0

/-- Trim `isGoSpace` characters from both ends of a character list. -/
def trimList (l : List Char) : List Char :=
  ((l.dropWhile isGoSpace).reverse.dropWhile isGoSpace).reverse

/-- Go `strings.TrimSpace`. -/
def goTrimSpace (s : String) : String := String.mk (trimList s.data)

/-- Go `strings.HasPrefix`. -/
def goHasPrefix (s p : String) : Bool := p.data.isPrefixOf s.data

/-- Split a character list at every occurrence of a single separator
character (Go `strings.Split` with a one-character separator). -/
def splitCharList (sep : Char) : List Char → List (List Char)
  | [] => [[]]
  | c :: rest =>
    match splitCharList sep rest with
    | [] => [[]]
    | h :: t => if c = sep then [] :: h :: t else (c :: h) :: t

/-- Split a character list at every non-overlapping occurrence of `::`
scanning left to right (Go `strings.Split` with separator `::`). -/
def splitDColonList : List Char → List (List Char)
  | ':' :: ':' :: rest => [] :: splitDColonList rest
  | c :: rest =>
    match splitDColonList rest with
    | [] => [[]]
    | h :: t => (c :: h) :: t
  | [] => [[]]

/-- Go `strings.Split(s, "\n")`. -/
def goSplitOnNewline (s : String) : List String :=
  (splitCharList '\n' s.data).map String.mk

/-- Go `strings.Split(s, ":")`. -/
def goSplitOnColon (s : String) : List String :=
  (splitCharList ':' s.data).map String.mk

/-- Go `strings.Split(s, "::")`. -/
def goSplitOnDColon (s : String) : List String :=
  (splitDColonList s.data).map String.mk

/-- Go `strings.Join(l, "\n")`. -/
def goJoinNewline (l : List String) : String :=
  match l with
  | [] => ""
  | h :: t => t.foldl (fun acc s => acc ++ "\n" ++ s) h

/-- Go `strings.TrimRight(s, "\n")`. -/
def goTrimRightNewline (s : String) : String :=
  String.mk (s.data.reverse.dropWhile (fun c => c = '\n')).reverse

/-- Go `fmt.Sprintf` with the verb `%-11s`: left-justify to width 11. -/
def padRight11 (s : String) : String :=
  s ++ String.mk (List.replicate (11 - s.length) ' ')

/-- One pass of the regular expression `\/[^:]+` replaced by the empty string
(`regexp.ReplaceAllString`): a slash with at least one following non-colon
character is dropped together with the maximal run of non-colon characters
after it.  The first argument tells whether the scanner is inside such a run. -/
def stripSlashAux : Bool → List Char → List Char
  | _, [] => []
  | true, c :: rest =>
    if c = ':' then ':' :: stripSlashAux false rest
    else stripSlashAux true rest
  | false, c :: rest =>
    if c = '/' && headIsNonColon rest then stripSlashAux true rest
    else c :: stripSlashAux false rest
where
  headIsNonColon : List Char → Bool
    | [] => false
    | d :: _ => d != ':'

/-- The regular expression `sst:sst:` replaced everywhere by `sst:`
(non-overlapping, scanning left to right, the replacement not rescanned). -/
def replaceSstSstList : List Char → List Char
  | 's' :: 's' :: 't' :: ':' :: 's' :: 's' :: 't' :: ':' :: rest =>
    's' :: 's' :: 't' :: ':' :: replaceSstSstList rest
  | c :: rest => c :: replaceSstSstList rest
  | [] => []

/-- The capture group of `regexp.FindStringSubmatch` for `\.sst\.(.+)$`:
everything after the leftmost `.sst.` whose remainder is nonempty and free of
newlines (`.` does not match a newline and `$` anchors at the end of text). -/
def sstTail : List Char → Option (List Char)
  | [] => none
  | c :: rest =>
    if c = '.' && ['s', 's', 't', '.'].isPrefixOf rest &&
        !(rest.drop 4).isEmpty && !((rest.drop 4).contains '\n') then
      some (rest.drop 4)
    else sstTail rest

/-- The regular expression `\.sst\..+$` replaced by the empty string: the
input is truncated before the leftmost match found by `sstTail`. -/
def stripSstTail : List Char → List Char
  | [] => []
  | c :: rest =>
    if c = '.' && ['s', 's', 't', '.'].isPrefixOf rest &&
        !(rest.drop 4).isEmpty && !((rest.drop 4).contains '\n') then []
    else c :: stripSstTail rest

/-- The anchored literal of the dynamic-provider rewrite in `formatURN`. -/
def dynMarker : List Char := "pulumi-nodejs:dynamic:Resource".data

/-- The regular expression `\$` replaced everywhere by the string `" → "`. -/
def replaceDollarList : List Char → List Char
  | [] => []
  | c :: rest =>
    if c = '$' then ' ' :: '→' :: ' ' :: replaceDollarList rest
    else c :: replaceDollarList rest

/-- Go `formatURN` (`progress.go` lines 51-72).  `none` models a panic: the Go
code computes `strings.Split(urn, "::")[2:]` — a slice bounds panic when the
split has fewer than 2 parts — and then indexes `splits[0]` and `splits[1]`,
an index panic when the original split has fewer than 4 parts.  Group
references (`$`) inside the replacement text of `ReplaceAllString` are not
modelled; the replacement is inserted literally. -/
def formatURN (urn : String) : Option String :=
  let splits0 := goSplitOnDColon urn
  if splits0.length < 2 then none
  else
    match splits0.drop 2 with
    | [] => none
    | [_] => none
    | urn0 :: resourceName0 :: _ =>
      let urn1 := String.mk (stripSlashAux false urn0.data)
      let urn2 := String.mk (replaceSstSstList urn1.data)
      let resourceType := sstTail resourceName0.data
      let isDynamic := dynMarker.isSuffixOf urn2.data && resourceType.isSome
      let urn3 :=
        if isDynamic then
          String.mk (urn2.data.take (urn2.data.length - dynMarker.length) ++
            resourceType.getD [])
        else urn2
      let resourceName1 :=
        if isDynamic then String.mk (stripSstTail resourceName0.data)
        else resourceName0
      let urn4 := String.mk (replaceDollarList urn3.data)
      let urn5 := String.mk (replaceDollarList urn4.data)
      some (urn5 ++ " → " ++ resourceName1)

/-- Largest `time.Duration` (`1<<63 - 1` nanoseconds). -/
def maxDuration : Int := 9223372036854775807

/-- Smallest `time.Duration` (`-1 << 63` nanoseconds). -/
def minDuration : Int := -9223372036854775808

/-- Go `time.Time.Sub` on two instants: the difference, saturating at the
`time.Duration` bounds. -/
def timeSub (t u : Int) : Int :=
  let d := t - u
  if d < minDuration then minDuration
  else if maxDuration < d then maxDuration
  else d

/-- Helper of Go `time.Duration.Round`. -/
def lessThanHalf (r m : Int) : Bool := r + r < m

/-- The Go `%` operator on durations: truncated remainder, which has the sign
of the dividend (our divisor `m` is always positive). -/
def goDurMod (d m : Int) : Int := if d < 0 then -((-d) % m) else d % m

/-- Go `time.Duration.Round`: round `d` to the nearest multiple of `m`, ties
away from zero; on int64 overflow the result saturates at the bound. -/
def durationRound (d m : Int) : Int :=
  if m ≤ 0 then d
  else
    let r0 := goDurMod d m
    if d < 0 then
      let r := -r0
      if lessThanHalf r m then d + r
      else if minDuration ≤ d - m + r then d - m + r
      else minDuration
    else
      if lessThanHalf r0 m then d - r0
      else if d + m - r0 ≤ maxDuration then d + m - r0
      else maxDuration

/-- One millisecond in nanoseconds: the granularity of
`duration.Round(time.Millisecond)`. -/
def msNanos : Int := 1000000

/-- The `ProgressMode` string constants (a fixed closed set). -/
inductive ProgressMode
  | deploy
  | remove
  | cancel
  | refresh
deriving DecidableEq

/-- The `color.Attribute` values the reducer passes to the renderer;
`reset` is the zero value of the Go type. -/
inductive ColorClass
  | reset
  | fgHiBlack
  | fgYellow
  | fgGreen
  | fgRed
  | fgWhite
deriving DecidableEq

/-- The fields of `apitype.StepEventMetadata` the reducer reads.  `op` and
`type` are the raw strings the Go code compares against (`apitype.OpSame` is
`"same"`, and so on); `newOutputs` is `Metadata.New.Outputs`, carried by
root `ResOutputs` events. -/
structure Metadata where
  urn : String
  type : String
  op : String
  newOutputs : List (String × String)
deriving DecidableEq

/-- One delivered engine event.  The Go code receives a struct of pointers and
tests them in order; by the documented input invariant exactly one pointer is
non-nil per delivered event, giving this tagged union. -/
inductive Event
  | summary
  | concurrentUpdate
  | stdOut (text : String)
  | resourcePre (md : Metadata)
  | resOutputs (md : Metadata)
  | resOpFailed
  | diagnostic (urn severity message : String)
deriving DecidableEq

/-- An event paired with the instant `time.Now()` yields while the reducer
processes it. -/
structure TimedEvent where
  now : Int
  evt : Event
deriving DecidableEq

/-- The Go `Progress` struct (the argument of `printProgress`).  Defaults are
the Go zero values of the omitted composite-literal fields. -/
structure Progress where
  color : ColorClass := ColorClass.reset
  label : String := ""
  urn : String := ""
  final : Bool := false
  message : String := ""
  duration : Int := 0
deriving DecidableEq

/-- One renderer call: either a formatted status line (recorded as the
`Progress` value; the terminal bytes, including `formatURN progress.urn`, the
`%-11s` padding, the ` (duration)` part shown only when the duration is
nonzero and the trailing message shown only when nonempty, are a pure function
of it) or a raw `fmt.Println` line. -/
inductive OutLine
  | statusLine (p : Progress)
  | rawLine (text : String)
deriving DecidableEq

/-- The Go `errorStatus` struct: one entry of the `errors` slice. -/
structure ErrorStatus where
  error : String
  urn : String
deriving DecidableEq

/-- The reducer state: the spinner (suffix text, started, enabled), the
`pending` and `dedupe` and `timing` and `outputs` maps, the `errors` slice and
the trace of rendered lines.  `dedupe` and `timing` are Go maps read with a
zero-value default, modelled as total functions; `pending` and `outputs` are
association lists. -/
structure St where
  suffix : String
  spinActive : Bool
  spinEnabled : Bool
  pending : List (String × String)
  dedupe : String → Bool
  timing : String → Int
  errors : List ErrorStatus
  outputs : List (String × String)
  lines : List OutLine

/-- The spinner suffix chosen from the mode at startup. -/
def modeSuffix (m : ProgressMode) : String :=
  match m with
  | .remove => "  Removing..."
  | .deploy => "  Deploying..."
  | .cancel => "  Cancelling..."
  | .refresh => "  Refreshing..."

/-- The state at `spin.Start()`: empty maps and slices, spinner running. -/
def initSt (m : ProgressMode) : St :=
  { suffix := modeSuffix m
    spinActive := true
    spinEnabled := true
    pending := []
    dedupe := fun _ => false
    timing := fun _ => 0
    errors := []
    outputs := []
    lines := [] }

/-- Go map assignment for a `map[string]bool`. -/
def setBoolMap (f : String → Bool) (k : String) (v : Bool) : String → Bool :=
  fun x => if x = k then v else f x

/-- Go map assignment for a `map[string]time.Time`. -/
def setIntMap (f : String → Int) (k : String) (v : Int) : String → Int :=
  fun x => if x = k then v else f x

/-- Go map assignment for `pending` (association list, overwrite by key). -/
def alistSet : List (String × String) → String → String → List (String × String)
  | [], k, v => [(k, v)]
  | (k0, v0) :: t, k, v =>
    if k0 = k then (k, v) :: t else (k0, v0) :: alistSet t k v

/-- Go `printProgress` (`progress.go` lines 75-103).  `spin.Disable()` runs
before the dedup check; `spin.Enable()` is deferred only after it, so a dedup
hit returns with the spinner left disabled.  Both live printing paths call
`formatURN progress.URN` (line 95, and line 85 in the dead branch), which
panics on a urn with fewer than 4 `::`-segments: that panic is `none` (the
partial `"|  "` marker the Go code has already written by then is not
recorded; no claim concerns the output of a crashed run).  The
`!progress.Final && false` branch is the dead batched-rendering path, kept
verbatim; the iteration order of the Go `pending` map range is modelled as
the association-list order (the branch is unreachable, so the choice is
unobservable). -/
def printProgress (st : St) (p : Progress) : Option St :=
  let st1 : St := { st with spinEnabled := false }
  let dedupeKey := p.urn ++ p.label
  if st1.dedupe dedupeKey then some st1
  else
    let st2 : St := { st1 with dedupe := setBoolMap st1.dedupe dedupeKey true }
    if !p.final && false then
      match formatURN p.urn with
      | none => none
      | some fu =>
        let entry := "   " ++ padRight11 p.label ++ " " ++ fu
        let st3 : St := { st2 with pending := alistSet st2.pending p.urn entry }
        let sfx := st3.pending.foldl (fun acc item => acc ++ item.2 ++ "\n")
          "  Deploying...\n"
        some { st3 with suffix := goTrimRightNewline sfx, spinEnabled := true }
    else
      match formatURN p.urn with
      | none => none
      | some _ =>
        some { st2 with lines := st2.lines ++ [OutLine.statusLine p],
                        spinEnabled := true }

/-- The root/stack pseudo-resource type. -/
def stackType : String := "pulumi:pulumi:Stack"

/-- The fixed operator-facing line printed on a concurrent update. -/
def concurrentMsg : String :=
  "Concurrent update detected, run `sst cancel` to delete lock file and retry."

/-- The short-message extraction for an attributed error diagnostic
(`progress.go` lines 291-296): split on newline; with more than 2 lines, take
line index 1, split it on `:` and trim the final segment; otherwise the raw
message.  The `getD` defaults are unreachable (`lines` has an index 1 when its
length exceeds 2, and a split is never empty). -/
def shortErrorMessage (message : String) : String :=
  let lines := goSplitOnNewline message
  if lines.length > 2 then
    let parts := goSplitOnColon ((lines.get? 1).getD "")
    goTrimSpace (parts.getLast?.getD "")
  else message

/-- The per-line cleanup for an unattributed error diagnostic (`progress.go`
lines 311-322): trim each line, drop empties, indent lines starting in `at`. -/
def cleanDiagLines (lines : List String) : List String :=
  lines.filterMap (fun line =>
    let trimmed := goTrimSpace line
    if trimmed = "" then none
    else if goHasPrefix trimmed "at" then some ("   " ++ trimmed)
    else some trimmed)

/-- The outcome of one loop iteration: continue with the new state, return
`false` immediately (the `ConcurrentUpdate` arm), or crash in `formatURN`
while printing a status line. -/
inductive StepOut
  | next (st : St)
  | abort (st : St)
  | panic

/-- The state carried by a non-crashing `StepOut`. -/
def StepOut.state : StepOut → Option St
  | .next a => some a
  | .abort a => some a
  | .panic => none

/-- Lift a `printProgress` call into the loop outcome: a formatter panic
aborts the whole process. -/
def printStep (st : St) (p : Progress) : StepOut :=
  match printProgress st p with
  | some st2 => .next st2
  | none => .panic

/-- The `ResourcePre` op dispatch (`progress.go` lines 136-210): the Go code
is a sequence of independent `if` blocks over mutually exclusive op strings,
each calling `printProgress` with a fixed `Progress` literal; this function
is that dispatch as a lookup, in source order, `none` when no block matches
(the event then falls through with no action). -/
def preProgressOf (md : Metadata) : Option Progress :=
  if md.op = "same" then
    some { color := .fgHiBlack, label := "Skipped", final := true, urn := md.urn }
  else if md.op = "create" then
    some { color := .fgYellow, label := "Creating", urn := md.urn }
  else if md.op = "update" then
    some { color := .fgYellow, label := "Updating", urn := md.urn }
  else if md.op = "create-replacement" then
    some { color := .fgYellow, label := "Creating", urn := md.urn }
  else if md.op = "delete-replaced" then
    some { color := .fgYellow, label := "Deleting", urn := md.urn }
  else if md.op = "replace" then
    some { color := .fgYellow, label := "Creating", urn := md.urn }
  else if md.op = "delete" then
    some { color := .fgYellow, label := "Deleting", urn := md.urn }
  else if md.op = "refresh" then
    some { color := .fgYellow, label := "Refreshing", urn := md.urn }
  else none

/-- The non-root `ResOutputs` op dispatch (`progress.go` lines 219-282), in
source order, all final lines carrying the precomputed duration; `none` when
no block matches. -/
def outputsProgressOf (mode : ProgressMode) (md : Metadata) (duration : Int) :
    Option Progress :=
  if md.op = "same" ∧ mode = .refresh then
    some { color := .fgGreen, label := "Refreshed", final := true,
           urn := md.urn, duration := duration }
  else if md.op = "create" then
    some { color := .fgGreen, label := "Created", final := true,
           urn := md.urn, duration := duration }
  else if md.op = "update" then
    some { color := .fgGreen, label := "Updated", final := true,
           urn := md.urn, duration := duration }
  else if md.op = "delete" then
    some { color := .fgRed, label := "Deleted", final := true,
           urn := md.urn, duration := duration }
  else if md.op = "delete-replaced" then
    some { color := .fgRed, label := "Deleted", final := true,
           urn := md.urn, duration := duration }
  else if md.op = "create-replacement" then
    some { color := .fgGreen, label := "Created", final := true,
           urn := md.urn, duration := duration }
  else if md.op = "replace" then
    some { color := .fgGreen, label := "Created", final := true,
           urn := md.urn, duration := duration }
  else none

/-- One iteration of the event loop (`progress.go` lines 113-330).
`ResourcePre` writes `timing` before the stack-type check; the op dispatches
go through `preProgressOf` / `outputsProgressOf`; `ResOpFailed` and an
unmatched op fall through with no action. -/
def step (mode : ProgressMode) (st : St) (te : TimedEvent) : StepOut :=
  match te.evt with
  | .summary => .next { st with suffix := "  Finalizing..." }
  | .concurrentUpdate =>
    .abort { st with spinEnabled := false,
                     lines := st.lines ++ [OutLine.rawLine concurrentMsg] }
  | .stdOut text =>
    .next { st with lines := st.lines ++ [OutLine.rawLine text] }
  | .resourcePre md =>
    let st2 := { st with timing := setIntMap st.timing md.urn te.now }
    if md.type = stackType then .next st2
    else
      match preProgressOf md with
      | some p => printStep st2 p
      | none => .next st2
  | .resOutputs md =>
    if md.type = stackType ∧ md.op ≠ "delete" then
      .next { st with outputs := md.newOutputs }
    else
      match outputsProgressOf mode md
          (durationRound (timeSub te.now (st.timing md.urn)) msNanos) with
      | some p => printStep st p
      | none => .next st
  | .resOpFailed => .next st
  | .diagnostic urn severity message =>
    if severity = "error" then
      if urn ≠ "" then
        let msg := shortErrorMessage message
        let st := { st with errors := st.errors ++ [⟨msg, urn⟩] }
        printStep st
          { color := .fgRed, label := "Error", final := true,
            urn := urn, message := msg }
      else
        let out := cleanDiagLines (goSplitOnNewline message)
        if out.length > 1 then
          .next { st with errors := st.errors ++ [⟨goJoinNewline out, ""⟩] }
        else .next st
    else .next st

/-- The event loop: fold `step` over the stream; the second component records
whether the loop returned early on a `ConcurrentUpdate`; `none` is a
`formatURN` panic, which ends the process with no verdict. -/
def loop (mode : ProgressMode) (st : St) :
    List TimedEvent → Option (St × Bool)
  | [] => some (st, false)
  | te :: rest =>
    match step mode st te with
    | .next st' => loop mode st' rest
    | .abort st' => some (st', true)
    | .panic => none

/-- The outcome of one run of `progress`: final state, whether the run was
aborted by a `ConcurrentUpdate`, and the returned boolean. -/
structure RunResult where
  st : St
  aborted : Bool
  success : Bool

/-- One full run of Go `progress` (`progress.go` lines 33-361), returning the
final state alongside the verdict; `none` is a process crash.  The deferred
`spin.Stop()` runs on both exits; the early `ConcurrentUpdate` return yields
`false` with no further printing; the normal exit prints the final report —
which calls `formatURN status.URN` (line 355) for every recorded error with a
nonempty urn and so panics if any such urn is malformed — and returns
`len(errors) == 0`. -/
def progressRun (mode : ProgressMode) (events : List TimedEvent) :
    Option RunResult :=
  match loop mode (initSt mode) events with
  | none => none
  | some (stL, true) =>
    some { st := { stL with spinActive := false }, aborted := true,
           success := false }
  | some (stL, false) =>
    let stF : St := { stL with spinActive := false }
    if stF.errors.all (fun e => e.urn == "" || (formatURN e.urn).isSome) then
      some { st := stF, aborted := false, success := stF.errors.isEmpty }
    else none

/-- Go `progress`: the boolean verdict of a run; `none` when the process
crashes and returns nothing. -/
def progress (mode : ProgressMode) (events : List TimedEvent) : Option Bool :=
  (progressRun mode events).map (fun r => r.success)

/-- Override the suffix of the state carried by a `StepOut`. -/
def StepOut.withSuffix (s : String) : StepOut → StepOut
  | .next a => .next { a with suffix := s }
  | .abort a => .abort { a with suffix := s }
  | .panic => .panic

/-- The dedup key of a rendered line: `urn + label` for a status line, none
for a raw line. -/
def lineKey : OutLine → Option String
  | .statusLine p => some (p.urn ++ p.label)
  | .rawLine _ => none

/-- How many status lines with dedup key `k` a trace contains. -/
def countKey (lines : List OutLine) (k : String) : Nat :=
  (lines.filter (fun l => lineKey l == some k)).length

/-- The dedup invariant tying the `dedupe` map to the trace: every key appears
on at most one status line, and on none while the map still reports it
unseen. -/
def KeyInv (ded : String → Bool) (lines : List OutLine) : Prop :=
  ∀ k, countKey lines k ≤ 1 ∧ (ded k = false → countKey lines k = 0)

/-- A state whose dedup map has already seen the key `urn:uCreating`, with the
spinner enabled. -/
def seenSt : St :=
  { initSt .deploy with dedupe := fun k => k == "urn:uCreating" }
end IonProgress



namespace IonProgress

theorem printProgress_of_seen (st : St) (p : Progress)
    (h : st.dedupe (p.urn ++ p.label) = true) :
    printProgress st p = some { st with spinEnabled := false } := by
  unfold printProgress
  simp [h]

theorem printProgress_of_not_seen (st : St) (p : Progress) (fu : String)
    (h : st.dedupe (p.urn ++ p.label) = false)
    (hfu : formatURN p.urn = some fu) :
    printProgress st p =
      some { st with spinEnabled := true,
                     dedupe := setBoolMap st.dedupe (p.urn ++ p.label) true,
                     lines := st.lines ++ [OutLine.statusLine p] } := by
  unfold printProgress
  simp [h, hfu]

theorem printProgress_panic (st : St) (p : Progress)
    (h : st.dedupe (p.urn ++ p.label) = false)
    (hfu : formatURN p.urn = none) :
    printProgress st p = none := by
  unfold printProgress
  simp [h, hfu]

theorem printStep_of_seen (st : St) (p : Progress)
    (h : st.dedupe (p.urn ++ p.label) = true) :
    printStep st p = .next { st with spinEnabled := false } := by
  unfold printStep
  rw [printProgress_of_seen st p h]

theorem printStep_of_not_seen (st : St) (p : Progress) (fu : String)
    (h : st.dedupe (p.urn ++ p.label) = false)
    (hfu : formatURN p.urn = some fu) :
    printStep st p =
      .next { st with spinEnabled := true,
                      dedupe := setBoolMap st.dedupe (p.urn ++ p.label) true,
                      lines := st.lines ++ [OutLine.statusLine p] } := by
  unfold printStep
  rw [printProgress_of_not_seen st p fu h hfu]

theorem printStep_panic (st : St) (p : Progress)
    (h : st.dedupe (p.urn ++ p.label) = false)
    (hfu : formatURN p.urn = none) :
    printStep st p = .panic := by
  unfold printStep
  rw [printProgress_panic st p h hfu]

/-- Claim C6, counterexample: the original claim says a dedup-hit call leaves
the liveness indicator's suspended/enabled state exactly as it was, but on
the state `seenSt` (spinner enabled, key `urn:uCreating` already seen) the
call disables the spinner and returns without re-enabling it; no formatter
call happens on this path, so the call completes. -/
theorem printProgress_seen_changes_spinner :
    seenSt.spinEnabled = true ∧
    printProgress seenSt
      { color := .fgYellow, label := "Creating", urn := "urn:u" } =
      some { seenSt with spinEnabled := false } ∧
    ({ seenSt with spinEnabled := false } : St).spinEnabled = false :=
  ⟨rfl, printProgress_of_seen seenSt
    { color := .fgYellow, label := "Creating", urn := "urn:u" } (by decide),
   rfl⟩

/-- Claim C6, amended: when `printProgress` is called with a dedup key that
was already seen, it returns (no formatter call, so no panic) with no line
emitted and the dedup set, pending map, timing, errors and outputs unchanged,
but the liveness indicator is left disabled — `spin.Disable()` runs before
the dedup check and the deferred `spin.Enable()` is registered only after
it. -/
theorem printProgress_seen_frame (st : St) (p : Progress)
    (h : st.dedupe (p.urn ++ p.label) = true) :
    printProgress st p = some { st with spinEnabled := false } :=
  printProgress_of_seen st p h

/-- Witness for `printProgress_seen_frame` at a concrete state and call. -/
theorem printProgress_seen_frame_witness :
    seenSt.dedupe
      ((Progress.urn { color := .fgYellow, label := "Creating", urn := "urn:u" }) ++
       (Progress.label { color := .fgYellow, label := "Creating", urn := "urn:u" }))
      = true ∧
    printProgress seenSt { color := .fgYellow, label := "Creating", urn := "urn:u" } =
      some { seenSt with spinEnabled := false } :=
  ⟨by decide,
   printProgress_seen_frame seenSt
     { color := .fgYellow, label := "Creating", urn := "urn:u" } (by decide)⟩

/-- Claim C3: the spec says `formatURN` must never fail even on malformed
input with fewer than 4 `::`-separated segments, but the Go code slices
`strings.Split(urn, "::")[2:]` and indexes elements 0 and 1 of the result,
which panics on such inputs (modelled as `none`); a well-formed 4-segment
identifier is formatted successfully. -/
theorem formatURN_panics_on_short_input :
    formatURN "urn:pulumi:production::starter" = none ∧
    formatURN "" = none ∧
    formatURN "a::b::c" = none ∧
    formatURN "urn:pulumi:production::starter::aws:s3/bucket:Bucket::my-bucket"
      = some "aws:s3:Bucket → my-bucket" := by
  refine ⟨by decide, by decide, by decide, by decide⟩

/-- Claim C10: a non-root `ResOutputs` event whose op is not in the outputs
label table — in particular `same` outside refresh mode, and `refresh` — is
silently dropped: no status line, no formatter call, and no state change
(the step returns the state unchanged; only the timing table was read). -/
theorem resOutputs_unlabeled_dropped (mode : ProgressMode) (st : St) (t : Int)
    (md : Metadata) (hty : md.type ≠ stackType)
    (hsame : ¬(md.op = "same" ∧ mode = .refresh))
    (hop : md.op ∉ (["create", "update", "delete", "delete-replaced",
      "create-replacement", "replace"] : List String)) :
    step mode st ⟨t, .resOutputs md⟩ = .next st := by
  simp only [List.mem_cons, List.not_mem_nil, or_false, not_or] at hop
  obtain ⟨h1, h2, h3, h4, h5, h6⟩ := hop
  have hnone : ∀ d, outputsProgressOf mode md d = none := by
    intro d
    unfold outputsProgressOf
    rw [if_neg hsame, if_neg h1, if_neg h2, if_neg h3, if_neg h4, if_neg h5,
      if_neg h6]
  simp only [step]
  rw [if_neg (fun hc => hty hc.1), hnone]

/-- Witness for `resOutputs_unlabeled_dropped`: a `refresh`-op outputs event
in deploy mode is dropped. -/
theorem resOutputs_unlabeled_dropped_witness :
    (("aws:t" : String) ≠ stackType ∧
      ¬((("refresh" : String) = "same") ∧ ProgressMode.deploy = .refresh) ∧
      ("refresh" : String) ∉ (["create", "update", "delete", "delete-replaced",
        "create-replacement", "replace"] : List String)) ∧
    step .deploy (initSt .deploy)
      ⟨7, .resOutputs ⟨"urn:r", "aws:t", "refresh", []⟩⟩ = .next (initSt .deploy) :=
  ⟨⟨by decide, by decide, by decide⟩,
   resOutputs_unlabeled_dropped .deploy (initSt .deploy) 7
     ⟨"urn:r", "aws:t", "refresh", []⟩ (by decide) (by decide) (by decide)⟩

/-- Claim C7: a `ResOutputs` whose type is the root pseudo-type and whose op
is not `delete` produces no status line (and calls no formatter) and replaces
`outputs` wholesale with the event's attribute map; delivered twice, the
second map wins and the run completes with an empty trace. -/
theorem rootOutputs_replace (mode : ProgressMode) (st : St) (t : Int)
    (md : Metadata) (hty : md.type = stackType) (hop : md.op ≠ "delete") :
    step mode st ⟨t, .resOutputs md⟩ = .next { st with outputs := md.newOutputs } ∧
    ∀ (md2 : Metadata) (t2 : Int), md2.type = stackType → md2.op ≠ "delete" →
      ∃ r, progressRun mode [⟨t, .resOutputs md⟩, ⟨t2, .resOutputs md2⟩]
          = some r ∧
        r.st.outputs = md2.newOutputs ∧ r.st.lines = [] := by
  have hstep : ∀ (s : St),
      step mode s ⟨t, .resOutputs md⟩ = .next { s with outputs := md.newOutputs } := by
    intro s
    simp only [step]
    rw [if_pos ⟨hty, hop⟩]
  refine ⟨hstep st, ?_⟩
  intro md2 t2 hty2 hop2
  have hstep2 : ∀ (s : St),
      step mode s ⟨t2, .resOutputs md2⟩ = .next { s with outputs := md2.newOutputs } := by
    intro s
    simp only [step]
    rw [if_pos ⟨hty2, hop2⟩]
  have hloop : loop mode (initSt mode)
      [⟨t, .resOutputs md⟩, ⟨t2, .resOutputs md2⟩] =
      some ({ initSt mode with outputs := md2.newOutputs }, false) := by
    simp only [loop, hstep, hstep2]
  refine ⟨{ st := { initSt mode with
                    outputs := md2.newOutputs,
                    spinActive := false },
            aborted := false, success := true }, ?_, rfl, rfl⟩
  unfold progressRun
  rw [hloop]
  rfl

/-- Witness for `rootOutputs_replace`: two root outputs events; the final
outputs map is the second event's map and no line is printed. -/
theorem rootOutputs_replace_witness :
    (("pulumi:pulumi:Stack" : String) = stackType ∧
      ("update" : String) ≠ "delete") ∧
    (step .deploy (initSt .deploy)
      ⟨1, .resOutputs ⟨"urn:s", "pulumi:pulumi:Stack", "update", [("a", "1")]⟩⟩
      = .next { initSt .deploy with outputs := [("a", "1")] } ∧
    ∀ (md2 : Metadata) (t2 : Int), md2.type = stackType → md2.op ≠ "delete" →
      ∃ r, progressRun .deploy
        [⟨1, .resOutputs ⟨"urn:s", "pulumi:pulumi:Stack", "update", [("a", "1")]⟩⟩,
         ⟨t2, .resOutputs md2⟩] = some r ∧
        r.st.outputs = md2.newOutputs ∧ r.st.lines = []) := by
  refine ⟨⟨by decide, by decide⟩, ?_⟩
  exact rootOutputs_replace .deploy (initSt .deploy) 1
    ⟨"urn:s", "pulumi:pulumi:Stack", "update", [("a", "1")]⟩
    (by decide) (by decide)


/-- Claim C8: an error-severity diagnostic with a urn the formatter can
render records in `errors`, and shows as the status-line detail, the short
message computed by the extraction rule of `shortErrorMessage` (split on
newline; with more than 2 lines, the trimmed final `:`-segment of line
index 1; otherwise the raw message); in particular the rule maps
`"line1\nERROR: boom\nline3"` to `"boom"`. -/
theorem diagnostic_short_message (mode : ProgressMode) (st : St) (t : Int)
    (u msg fu : String) (hu : u ≠ "")
    (hded : st.dedupe (u ++ "Error") = false)
    (hfu : formatURN u = some fu) :
    (∃ st2, step mode st ⟨t, .diagnostic u "error" msg⟩ = .next st2 ∧
      st2.errors = st.errors ++ [⟨shortErrorMessage msg, u⟩] ∧
      st2.lines = st.lines ++ [OutLine.statusLine
        { color := .fgRed, label := "Error", final := true, urn := u,
          message := shortErrorMessage msg }]) ∧
    shortErrorMessage "line1\nERROR: boom\nline3" = "boom" := by
  constructor
  · have hps := printStep_of_not_seen
      { st with errors := st.errors ++ [⟨shortErrorMessage msg, u⟩] }
      { color := .fgRed, label := "Error", final := true, urn := u,
        message := shortErrorMessage msg } fu hded hfu
    refine ⟨{ st with
              errors := st.errors ++ [⟨shortErrorMessage msg, u⟩],
              spinEnabled := true,
              dedupe := setBoolMap st.dedupe (u ++ "Error") true,
              lines := st.lines ++ [OutLine.statusLine
                { color := .fgRed, label := "Error", final := true, urn := u,
                  message := shortErrorMessage msg }] }, ?_, rfl, rfl⟩
    simp only [step]
    rw [if_pos trivial, if_pos hu, hps]
  · decide

/-- Witness for `diagnostic_short_message` on the attributed-failure
scenario of the spec, at a well-formed 4-segment urn. -/
theorem diagnostic_short_message_witness :
    (("urn:pulumi:s::p::aws:t::n" : String) ≠ "" ∧
      (initSt .deploy).dedupe ("urn:pulumi:s::p::aws:t::n" ++ "Error") = false ∧
      formatURN "urn:pulumi:s::p::aws:t::n" = some "aws:t → n") ∧
    ((∃ st2, step .deploy (initSt .deploy)
        ⟨0, .diagnostic "urn:pulumi:s::p::aws:t::n" "error"
          "line1\nERROR: boom\nline3"⟩ = .next st2 ∧
      st2.errors = (initSt .deploy).errors ++
        [⟨shortErrorMessage "line1\nERROR: boom\nline3",
          "urn:pulumi:s::p::aws:t::n"⟩] ∧
      st2.lines = (initSt .deploy).lines ++ [OutLine.statusLine
        { color := .fgRed, label := "Error", final := true,
          urn := "urn:pulumi:s::p::aws:t::n",
          message := shortErrorMessage "line1\nERROR: boom\nline3" }]) ∧
    shortErrorMessage "line1\nERROR: boom\nline3" = "boom") := by
  refine ⟨⟨by decide, by decide, by decide⟩, ?_⟩
  exact diagnostic_short_message .deploy (initSt .deploy) 0
    "urn:pulumi:s::p::aws:t::n" "line1\nERROR: boom\nline3" "aws:t → n"
    (by decide) (by decide) (by decide)

theorem step_cu (mode : ProgressMode) (st : St) (t : Int) :
    step mode st ⟨t, .concurrentUpdate⟩ =
      .abort { st with spinEnabled := false,
                       lines := st.lines ++ [OutLine.rawLine concurrentMsg] } := rfl

theorem printStep_ne_abort (st : St) (p : Progress) (st2 : St) :
    printStep st p ≠ .abort st2 := by
  unfold printStep
  cases printProgress st p <;> simp

theorem step_abort_cu (mode : ProgressMode) (st : St) (te : TimedEvent)
    (st2 : St) (h : step mode st te = .abort st2) :
    te.evt = Event.concurrentUpdate := by
  cases hevt : te.evt <;>
    first
      | rfl
      | (simp only [step, hevt] at h
         (repeat' split at h) <;>
           first
             | exact absurd h (printStep_ne_abort _ _ _)
             | simp at h)

theorem loop_some_aborted_iff (mode : ProgressMode) (st : St)
    (evts : List TimedEvent) (stL : St) (b : Bool)
    (h : loop mode st evts = some (stL, b)) :
    b = true ↔ ∃ te ∈ evts, te.evt = Event.concurrentUpdate := by
  induction evts generalizing st with
  | nil =>
    have h2 : some (st, false) = some (stL, b) := h
    cases h2
    simp
  | cons te rest ih =>
    simp only [loop] at h
    cases hs : step mode st te with
    | next st3 =>
      rw [hs] at h
      have hcu : te.evt ≠ Event.concurrentUpdate := by
        intro hc
        obtain ⟨tn, e⟩ := te
        simp only at hc
        subst hc
        rw [step_cu] at hs
        cases hs
      rw [ih st3 h]
      simp [hcu]
    | abort st3 =>
      rw [hs] at h
      have h2 : some (st3, true) = some (stL, b) := h
      cases h2
      exact iff_of_true rfl ⟨te, by simp, step_abort_cu mode st te _ hs⟩
    | panic =>
      rw [hs] at h
      cases h

theorem loop_cu_drop (mode : ProgressMode) (st : St) (t : Int)
    (pre post : List TimedEvent) :
    loop mode st (pre ++ ⟨t, Event.concurrentUpdate⟩ :: post) =
    loop mode st (pre ++ [⟨t, Event.concurrentUpdate⟩]) := by
  induction pre generalizing st with
  | nil => simp only [List.nil_append, loop, step_cu]
  | cons te pr ih =>
    simp only [List.cons_append, loop]
    cases step mode st te with
    | next st3 => exact ih st3
    | abort st3 => rfl
    | panic => rfl

/-- Claim C1: for a run that completes (the process does not crash in the
formatter), `progress` returns success exactly when the run was not cut
short by a `ConcurrentUpdate` and the `errors` slice — empty at start and
only ever appended to — is still empty at the end. -/
theorem progress_verdict (mode : ProgressMode) (events : List TimedEvent)
    (r : RunResult) (h : progressRun mode events = some r) :
    r.success = true ↔
      ((∀ te ∈ events, te.evt ≠ Event.concurrentUpdate) ∧
        r.st.errors = []) := by
  unfold progressRun at h
  rcases hloop : loop mode (initSt mode) events with _ | ⟨stL, b⟩
  · rw [hloop] at h
    cases h
  · rw [hloop] at h
    have hiff := loop_some_aborted_iff mode (initSt mode) events stL b hloop
    cases b with
    | true =>
      have h2 : some ({ st := { stL with spinActive := false },
                        aborted := true,
                        success := false } : RunResult) = some r := h
      cases h2
      obtain ⟨te, hmem, hcu⟩ := hiff.mp rfl
      constructor
      · intro hs
        simp at hs
      · rintro ⟨hall, -⟩
        exact absurd hcu (hall te hmem)
    | false =>
      have h2 : (if ({ stL with spinActive := false } : St).errors.all
            (fun e => e.urn == "" || (formatURN e.urn).isSome) then
          some ({ st := { stL with spinActive := false },
                  aborted := false,
                  success := ({ stL with spinActive := false }
                    : St).errors.isEmpty } : RunResult)
        else none) = some r := h
      simp only [Bool.false_eq_true, false_iff, not_exists] at hiff
      split at h2
      · cases h2
        constructor
        · intro hs
          refine ⟨fun te hmem hc => hiff te ⟨hmem, hc⟩, ?_⟩
          simpa [List.isEmpty_iff] using hs
        · rintro ⟨-, herr⟩
          simpa [List.isEmpty_iff] using herr
      · cases h2

/-- Witness for `progress_verdict`: the empty stream completes with success
and an empty errors slice. -/
theorem progress_verdict_witness :
    progressRun .deploy [] = some
      { st := { initSt .deploy with spinActive := false },
        aborted := false,
        success := true } ∧
    (({ st := { initSt .deploy with spinActive := false },
        aborted := false,
        success := true } : RunResult).success = true ↔
      ((∀ te ∈ ([] : List TimedEvent), te.evt ≠ Event.concurrentUpdate) ∧
        ({ st := { initSt .deploy with spinActive := false },
           aborted := false,
           success := true } : RunResult).st.errors = [])) :=
  ⟨rfl, progress_verdict .deploy [] _ rfl⟩

/-- Claim C2: once a `ConcurrentUpdate` is delivered, no later event in the
stream is processed — the run outcome (a crash in `pre` included) is
identical for every continuation of the stream — and whenever the run
returns a verdict at all, that verdict is failure, regardless of prior
state. -/
theorem concurrentUpdate_short_circuit (mode : ProgressMode) (t : Int)
    (pre post post2 : List TimedEvent) :
    progressRun mode (pre ++ ⟨t, Event.concurrentUpdate⟩ :: post) =
      progressRun mode (pre ++ ⟨t, Event.concurrentUpdate⟩ :: post2) ∧
    ∀ b, progress mode (pre ++ ⟨t, Event.concurrentUpdate⟩ :: post) = some b →
      b = false := by
  constructor
  · unfold progressRun
    conv_lhs => rw [loop_cu_drop]
    conv_rhs => rw [loop_cu_drop]
  · intro b hb
    unfold progress progressRun at hb
    rcases hloop : loop mode (initSt mode)
        (pre ++ ⟨t, Event.concurrentUpdate⟩ :: post) with _ | ⟨stL, ab⟩
    · rw [hloop] at hb
      cases hb
    · rw [hloop] at hb
      have hab : ab = true :=
        (loop_some_aborted_iff mode (initSt mode) _ stL ab hloop).mpr
          ⟨⟨t, Event.concurrentUpdate⟩, by simp, rfl⟩
      subst hab
      have hb2 : some false = some b := hb
      cases hb2
      rfl


theorem countKey_append_raw (lines : List OutLine) (txt : String) (k : String) :
    countKey (lines ++ [OutLine.rawLine txt]) k = countKey lines k := by
  simp [countKey, lineKey, List.filter_append]

theorem countKey_append_status (lines : List OutLine) (p : Progress) (k : String) :
    countKey (lines ++ [OutLine.statusLine p]) k =
      countKey lines k + (if p.urn ++ p.label = k then 1 else 0) := by
  by_cases h : p.urn ++ p.label = k
  · simp [countKey, lineKey, List.filter_append, h]
  · simp [countKey, lineKey, List.filter_append, h]

theorem printProgress_keyInv (st : St) (p : Progress)
    (h : KeyInv st.dedupe st.lines) (st2 : St)
    (h2 : printProgress st p = some st2) :
    KeyInv st2.dedupe st2.lines := by
  cases hd : st.dedupe (p.urn ++ p.label) with
  | true =>
    rw [printProgress_of_seen st p hd] at h2
    cases h2
    exact h
  | false =>
    cases hfu : formatURN p.urn with
    | none =>
      rw [printProgress_panic st p hd hfu] at h2
      cases h2
    | some fu =>
      rw [printProgress_of_not_seen st p fu hd hfu] at h2
      cases h2
      intro k
      dsimp only
      rw [countKey_append_status]
      by_cases hk : p.urn ++ p.label = k
      · subst hk
        have h0 := (h (p.urn ++ p.label)).2 hd
        constructor
        · rw [h0]
          simp
        · intro hded
          exfalso
          simp only [setBoolMap, if_pos rfl] at hded
          cases hded
      · have h1 := h k
        rw [if_neg hk]
        constructor
        · simpa using h1.1
        · intro hded
          have hne : ¬(k = p.urn ++ p.label) := fun hc => hk hc.symm
          simp only [setBoolMap, if_neg hne] at hded
          simpa using h1.2 hded

theorem printStep_keyInv (st : St) (p : Progress)
    (h : KeyInv st.dedupe st.lines) (st2 : St)
    (h2 : (printStep st p).state = some st2) :
    KeyInv st2.dedupe st2.lines := by
  unfold printStep at h2
  cases hpp : printProgress st p with
  | none =>
    rw [hpp] at h2
    cases h2
  | some st3 =>
    rw [hpp] at h2
    have h3 : some st3 = some st2 := h2
    cases h3
    exact printProgress_keyInv st p h _ hpp

theorem step_keyInv (mode : ProgressMode) (st : St) (te : TimedEvent)
    (h : KeyInv st.dedupe st.lines) (st2 : St)
    (h2 : (step mode st te).state = some st2) :
    KeyInv st2.dedupe st2.lines := by
  cases hevt : te.evt <;> simp only [step, hevt] at h2 <;>
    (repeat' split at h2) <;>
    first
      | (refine printStep_keyInv _ _ ?_ _ h2; exact h)
      | (cases h2; exact h)
      | (cases h2; intro k; rw [countKey_append_raw]; exact h k)

theorem loop_keyInv (mode : ProgressMode) (evts : List TimedEvent) :
    ∀ (st : St), KeyInv st.dedupe st.lines →
      ∀ q, loop mode st evts = some q → KeyInv q.1.dedupe q.1.lines := by
  induction evts with
  | nil =>
    intro st h q hq
    have h2 : some (st, false) = some q := hq
    cases h2
    exact h
  | cons te rest ih =>
    intro st h q hq
    simp only [loop] at hq
    cases hs : step mode st te with
    | next st2 =>
      rw [hs] at hq
      exact ih st2 (step_keyInv mode st te h st2 (by rw [hs]; rfl)) q hq
    | abort st2 =>
      rw [hs] at hq
      have hq2 : some (st2, true) = some q := hq
      cases hq2
      exact step_keyInv mode st te h st2 (by rw [hs]; rfl)
    | panic =>
      rw [hs] at hq
      cases hq

/-- Claim C5, counterexample: re-delivering an identical attributed error
diagnostic (same well-formed urn, same label `Error`, so the same dedup key)
appends a second entry to `errors` even though the status line is
deduplicated — the append runs before `printProgress` — so re-delivery is
not free of state mutation.  The urn has 4 `::`-segments, so the first
print's `formatURN` call succeeds and the run completes. -/
theorem dup_diagnostic_mutates_state :
    ((progressRun .deploy
      [⟨0, .diagnostic "urn:pulumi:s::p::aws:t::n" "error" "boom"⟩,
       ⟨0, .diagnostic "urn:pulumi:s::p::aws:t::n" "error" "boom"⟩]).map
        fun r => r.st.errors) =
      some [⟨"boom", "urn:pulumi:s::p::aws:t::n"⟩,
            ⟨"boom", "urn:pulumi:s::p::aws:t::n"⟩] ∧
    ((progressRun .deploy
      [⟨0, .diagnostic "urn:pulumi:s::p::aws:t::n" "error" "boom"⟩,
       ⟨0, .diagnostic "urn:pulumi:s::p::aws:t::n" "error" "boom"⟩]).map
        fun r => r.st.lines.length) = some 1 :=
  ⟨by decide, by decide⟩

/-- Claim C5, amended: over any completed run (a crashed run is `none` and
contributes no trace), at most one status line is emitted per dedup key
`urn ++ label` — re-delivering an already-keyed combination produces no
additional output line, though mutations performed before the dedup check,
such as the `errors` append and the `timing` write, do recur. -/
theorem dedup_line_unique (mode : ProgressMode) (events : List TimedEvent)
    (k : String) :
    countKey ((progressRun mode events).elim [] (fun r => r.st.lines)) k
      ≤ 1 := by
  rcases hrun : progressRun mode events with _ | r
  · simp [countKey]
  · simp only [Option.elim]
    unfold progressRun at hrun
    rcases hloop : loop mode (initSt mode) events with _ | ⟨stL, b⟩
    · rw [hloop] at hrun
      cases hrun
    · rw [hloop] at hrun
      have h0 : KeyInv (initSt mode).dedupe (initSt mode).lines := by
        intro k2
        simp [countKey, initSt]
      have h1 := loop_keyInv mode events (initSt mode) h0 (stL, b) hloop
      cases b with
      | true =>
        have h2 : some ({ st := { stL with spinActive := false },
                          aborted := true,
                          success := false } : RunResult) = some r := hrun
        cases h2
        exact (h1 k).1
      | false =>
        have h2 : (if ({ stL with spinActive := false } : St).errors.all
              (fun e => e.urn == "" || (formatURN e.urn).isSome) then
            some ({ st := { stL with spinActive := false },
                    aborted := false,
                    success := ({ stL with spinActive := false }
                      : St).errors.isEmpty } : RunResult)
          else none) = some r := hrun
        split at h2
        · cases h2
          exact (h1 k).1
        · cases h2


theorem printProgress_suffix (st : St) (sfx : String) (p : Progress) :
    printProgress { st with suffix := sfx } p =
      (printProgress st p).map (fun x => { x with suffix := sfx }) := by
  unfold printProgress
  cases hd : st.dedupe (p.urn ++ p.label) with
  | true => simp [hd]
  | false =>
    cases hfu : formatURN p.urn with
    | none => simp [hd, hfu]
    | some fu => simp [hd, hfu]

theorem printStep_suffix (st : St) (sfx : String) (p : Progress) :
    printStep { st with suffix := sfx } p = (printStep st p).withSuffix sfx := by
  unfold printStep
  rw [printProgress_suffix]
  cases printProgress st p <;> rfl

theorem step_suffix (mode : ProgressMode) (st : St) (te : TimedEvent)
    (sfx : String) :
    ∃ sfx2, step mode { st with suffix := sfx } te =
      (step mode st te).withSuffix sfx2 := by
  obtain ⟨tn, e⟩ := te
  cases e with
  | summary => exact ⟨"  Finalizing...", rfl⟩
  | concurrentUpdate => exact ⟨sfx, rfl⟩
  | stdOut text => exact ⟨sfx, rfl⟩
  | resOpFailed => exact ⟨sfx, rfl⟩
  | resourcePre md =>
    refine ⟨sfx, ?_⟩
    by_cases hty : md.type = stackType
    · simp only [step, if_pos hty]
      rfl
    · simp only [step, if_neg hty]
      cases preProgressOf md with
      | none => rfl
      | some p =>
        exact printStep_suffix
          { st with timing := setIntMap st.timing md.urn tn } sfx p
  | resOutputs md =>
    refine ⟨sfx, ?_⟩
    by_cases hty : md.type = stackType ∧ md.op ≠ "delete"
    · simp only [step, if_pos hty]
      rfl
    · simp only [step, if_neg hty]
      cases houtp : outputsProgressOf mode md
          (durationRound (timeSub tn (st.timing md.urn)) msNanos) with
      | none => rfl
      | some p => exact printStep_suffix st sfx p
  | diagnostic urn severity message =>
    refine ⟨sfx, ?_⟩
    by_cases hsev : severity = "error"
    · simp only [step, if_pos hsev]
      by_cases hurn : urn = ""
      · simp only [if_neg (not_not_intro hurn)]
        by_cases hlen : (cleanDiagLines (goSplitOnNewline message)).length > 1
        · simp only [if_pos hlen]
          rfl
        · simp only [if_neg hlen]
          rfl
      · simp only [if_pos hurn]
        exact printStep_suffix
          { st with errors := st.errors ++ [⟨shortErrorMessage message, urn⟩] }
          sfx _
    · simp only [step, if_neg hsev]
      rfl

theorem loop_suffix (mode : ProgressMode) (evts : List TimedEvent) :
    ∀ (st : St) (sfx : String), ∃ sfx2,
      loop mode { st with suffix := sfx } evts =
        (loop mode st evts).map (fun q => ({ q.1 with suffix := sfx2 }, q.2)) := by
  induction evts with
  | nil =>
    intro st sfx
    exact ⟨sfx, rfl⟩
  | cons te rest ih =>
    intro st sfx
    obtain ⟨sfx2, hstep⟩ := step_suffix mode st te sfx
    simp only [loop]
    rw [hstep]
    cases hs : step mode st te with
    | next st3 =>
      obtain ⟨sfx3, hrest⟩ := ih st3 sfx2
      exact ⟨sfx3, hrest⟩
    | abort st3 => exact ⟨sfx2, rfl⟩
    | panic => exact ⟨sfx2, rfl⟩

theorem outputsProgressOf_mode (m1 m2 : ProgressMode)
    (h1 : m1 ≠ ProgressMode.refresh) (h2 : m2 ≠ ProgressMode.refresh)
    (md : Metadata) (d : Int) :
    outputsProgressOf m1 md d = outputsProgressOf m2 md d := by
  unfold outputsProgressOf
  rw [if_neg (fun hc : md.op = "same" ∧ m1 = ProgressMode.refresh => h1 hc.2),
    if_neg (fun hc : md.op = "same" ∧ m2 = ProgressMode.refresh => h2 hc.2)]

theorem step_mode (m1 m2 : ProgressMode)
    (h1 : m1 ≠ ProgressMode.refresh) (h2 : m2 ≠ ProgressMode.refresh)
    (st : St) (te : TimedEvent) :
    step m1 st te = step m2 st te := by
  obtain ⟨tn, e⟩ := te
  cases e with
  | resOutputs md =>
    simp only [step]
    rw [outputsProgressOf_mode m1 m2 h1 h2]
  | summary => rfl
  | concurrentUpdate => rfl
  | stdOut text => rfl
  | resOpFailed => rfl
  | resourcePre md => rfl
  | diagnostic urn severity message => rfl

theorem loop_mode (m1 m2 : ProgressMode)
    (h1 : m1 ≠ ProgressMode.refresh) (h2 : m2 ≠ ProgressMode.refresh)
    (evts : List TimedEvent) :
    ∀ st, loop m1 st evts = loop m2 st evts := by
  induction evts with
  | nil => intro st; rfl
  | cons te rest ih =>
    intro st
    simp only [loop]
    rw [step_mode m1 m2 h1 h2 st te]
    cases step m2 st te with
    | next st3 => exact ih st3
    | abort st3 => rfl
    | panic => rfl

/-- Claim C9: for any two non-refresh modes the reducer behaves identically
on the same stream — the runs agree on whether they crash, on the emitted
status lines, on the recorded errors, on the captured outputs and on the
boolean verdict; the mode reaches only the spinner suffix text (and the
refresh-only `Refreshed` label, excluded here). -/
theorem mode_only_suffix (m1 m2 : ProgressMode)
    (h1 : m1 ≠ ProgressMode.refresh) (h2 : m2 ≠ ProgressMode.refresh)
    (events : List TimedEvent) :
    (progressRun m1 events).map (fun r => r.st.lines) =
      (progressRun m2 events).map (fun r => r.st.lines) ∧
    (progressRun m1 events).map (fun r => r.st.errors) =
      (progressRun m2 events).map (fun r => r.st.errors) ∧
    (progressRun m1 events).map (fun r => r.st.outputs) =
      (progressRun m2 events).map (fun r => r.st.outputs) ∧
    progress m1 events = progress m2 events := by
  obtain ⟨sfx2, hsfx⟩ := loop_suffix m1 events (initSt m2) (modeSuffix m1)
  have hmode := loop_mode m1 m2 h1 h2 events (initSt m2)
  have hsame : loop m1 (initSt m1) events =
      (loop m2 (initSt m2) events).map
        (fun q => ({ q.1 with suffix := sfx2 }, q.2)) := by
    have he : loop m1 (initSt m1) events =
        loop m1 { initSt m2 with suffix := modeSuffix m1 } events := rfl
    rw [he, hsfx, hmode]
  rcases hloop : loop m2 (initSt m2) events with _ | ⟨stL, b⟩
  · have hm1 : loop m1 (initSt m1) events = none := by
      rw [hsame, hloop]
      rfl
    have hr1 : progressRun m1 events = none := by
      unfold progressRun
      rw [hm1]
    have hr2 : progressRun m2 events = none := by
      unfold progressRun
      rw [hloop]
    simp [progress, hr1, hr2]
  · have hm1 : loop m1 (initSt m1) events =
        some ({ stL with suffix := sfx2 }, b) := by
      rw [hsame, hloop]
      rfl
    cases b with
    | true =>
      have hr1 : progressRun m1 events = some
          { st := { stL with suffix := sfx2, spinActive := false },
            aborted := true, success := false } := by
        unfold progressRun
        rw [hm1]
      have hr2 : progressRun m2 events = some
          { st := { stL with spinActive := false },
            aborted := true, success := false } := by
        unfold progressRun
        rw [hloop]
      refine ⟨?_, ?_, ?_, ?_⟩ <;> simp [progress, hr1, hr2]
    | false =>
      have hstep1 : progressRun m1 events =
          (if stL.errors.all (fun e => e.urn == "" || (formatURN e.urn).isSome)
            then
              some ({ st := { stL with suffix := sfx2, spinActive := false },
                      aborted := false,
                      success := stL.errors.isEmpty } : RunResult)
            else none) := by
        unfold progressRun
        rw [hm1]
      have hstep2 : progressRun m2 events =
          (if stL.errors.all (fun e => e.urn == "" || (formatURN e.urn).isSome)
            then
              some ({ st := { stL with spinActive := false },
                      aborted := false,
                      success := stL.errors.isEmpty } : RunResult)
            else none) := by
        unfold progressRun
        rw [hloop]
      cases hall : stL.errors.all
          (fun e => e.urn == "" || (formatURN e.urn).isSome) with
      | true =>
        rw [hall] at hstep1 hstep2
        simp only [if_pos rfl] at hstep1 hstep2
        refine ⟨?_, ?_, ?_, ?_⟩ <;> simp [progress, hstep1, hstep2]
      | false =>
        rw [hall] at hstep1 hstep2
        simp only [Bool.false_eq_true, if_neg (fun hc => hc)] at hstep1 hstep2
        simp [progress, hstep1, hstep2]

/-- Witness for `mode_only_suffix`: deploy versus remove mode on a stream
with one well-formed create event. -/
theorem mode_only_suffix_witness :
    (ProgressMode.deploy ≠ ProgressMode.refresh ∧
      ProgressMode.remove ≠ ProgressMode.refresh) ∧
    ((progressRun .deploy
        [⟨0, .resourcePre ⟨"urn:pulumi:s::p::aws:t::n", "aws:t", "create", []⟩⟩]).map
        (fun r => r.st.lines) =
      (progressRun .remove
        [⟨0, .resourcePre ⟨"urn:pulumi:s::p::aws:t::n", "aws:t", "create", []⟩⟩]).map
        (fun r => r.st.lines) ∧
    (progressRun .deploy
        [⟨0, .resourcePre ⟨"urn:pulumi:s::p::aws:t::n", "aws:t", "create", []⟩⟩]).map
        (fun r => r.st.errors) =
      (progressRun .remove
        [⟨0, .resourcePre ⟨"urn:pulumi:s::p::aws:t::n", "aws:t", "create", []⟩⟩]).map
        (fun r => r.st.errors) ∧
    (progressRun .deploy
        [⟨0, .resourcePre ⟨"urn:pulumi:s::p::aws:t::n", "aws:t", "create", []⟩⟩]).map
        (fun r => r.st.outputs) =
      (progressRun .remove
        [⟨0, .resourcePre ⟨"urn:pulumi:s::p::aws:t::n", "aws:t", "create", []⟩⟩]).map
        (fun r => r.st.outputs) ∧
    progress .deploy
        [⟨0, .resourcePre ⟨"urn:pulumi:s::p::aws:t::n", "aws:t", "create", []⟩⟩] =
      progress .remove
        [⟨0, .resourcePre ⟨"urn:pulumi:s::p::aws:t::n", "aws:t", "create", []⟩⟩]) :=
  ⟨⟨by decide, by decide⟩,
   mode_only_suffix .deploy .remove (by decide) (by decide)
     [⟨0, .resourcePre ⟨"urn:pulumi:s::p::aws:t::n", "aws:t", "create", []⟩⟩]⟩


theorem strAppend_left_cancel {u a b : String} (h : u ++ a = u ++ b) :
    a = b := by
  obtain ⟨du⟩ := u
  obtain ⟨da⟩ := a
  obtain ⟨db⟩ := b
  have h2 : du ++ da = du ++ db := congrArg String.data h
  exact congrArg String.mk (List.append_cancel_left h2)

theorem durationRound_formula (d : Int) (hd0 : 0 ≤ d)
    (hd1 : d ≤ 4611686018427387904) :
    durationRound d msNanos = msNanos * ((d + 500000) / msNanos) := by
  simp only [durationRound, goDurMod, lessThanHalf, msNanos, maxDuration,
    minDuration, decide_eq_true_eq]
  split_ifs <;> omega

theorem timeSub_eq (a b : Int) (h1 : minDuration ≤ a - b)
    (h2 : a - b ≤ maxDuration) :
    timeSub a b = a - b := by
  simp only [timeSub, minDuration, maxDuration] at *
  split_ifs <;> omega

/-- Claim C4, counterexample: a non-root `ResourceOutputs` with no prior
`ResourcePre` does not get a zero/absent duration: the Go map lookup yields
the zero `time.Time`, so the line carries the rounded time since the zero
instant — here 5000000 ns at `now = 5000000` — not zero.  The urn has 4
`::`-segments, so the print succeeds and the run completes. -/
theorem missing_pre_duration_not_zero :
    ((progressRun .deploy
      [⟨5000000, .resOutputs ⟨"urn:pulumi:s::p::aws:t::n", "aws:t", "create", []⟩⟩]).map
      (fun r => r.st.lines)) =
      some [OutLine.statusLine
        { color := .fgGreen, label := "Created", final := true,
          urn := "urn:pulumi:s::p::aws:t::n", duration := 5000000 }] ∧
    (5000000 : Int) ≠ 0 :=
  ⟨by decide, by decide⟩

/-- Claim C4, amended: over a completed run, a `ResourcePre` for urn U at
`T0` followed by a non-root `ResourceOutputs` for U at `T1 > T0` emits a
final line whose duration is `T1 - T0` rounded to millisecond granularity
(ties away from zero); with no prior `ResourcePre`, the timing lookup yields
the zero instant, so the duration is now minus zero rounded — in general a
huge nonzero value, not zero/absent.  The hypothesis `formatURN u = some fu`
keeps the status-line prints on the non-panicking path the code actually
supports; the bounds keep `time.Time.Sub` and `Duration.Round` away from
their int64 saturation. -/
theorem duration_correct (mode : ProgressMode) (u ty ty2 fu : String)
    (T0 T1 : Int) (hty2 : ty2 ≠ stackType) (hlt : T0 < T1)
    (hbound : T1 - T0 ≤ 4611686018427387904)
    (hfu : formatURN u = some fu) :
    (∃ r rest, progressRun mode
        [⟨T0, .resourcePre ⟨u, ty, "create", []⟩⟩,
         ⟨T1, .resOutputs ⟨u, ty2, "create", []⟩⟩] = some r ∧
      r.st.lines = rest ++ [OutLine.statusLine
        { color := .fgGreen, label := "Created", final := true, urn := u,
          duration := msNanos * ((T1 - T0 + 500000) / msNanos) }]) ∧
    (∀ T : Int, 0 ≤ T → T ≤ 4611686018427387904 →
      ∃ r, progressRun mode
          [⟨T, .resOutputs ⟨u, ty2, "create", []⟩⟩] = some r ∧
        r.st.lines = [OutLine.statusLine
          { color := .fgGreen, label := "Created", final := true, urn := u,
            duration := msNanos * ((T + 500000) / msNanos) }]) := by
  have houts : ∀ d : Int, outputsProgressOf mode ⟨u, ty2, "create", []⟩ d =
      some { color := .fgGreen, label := "Created", final := true, urn := u,
             duration := d } := by
    intro d
    unfold outputsProgressOf
    rw [if_neg (fun hc => absurd (show ("create" : String) = "same" from hc.1)
      (by decide)), if_pos rfl]
  have hmin : minDuration ≤ T1 - T0 := by
    unfold minDuration
    omega
  have hmax : T1 - T0 ≤ maxDuration := by
    unfold maxDuration
    omega
  have htA : setIntMap (initSt mode).timing u T0 u = T0 := by
    simp [setIntMap]
  have hts : timeSub T1 (setIntMap (initSt mode).timing u T0 u) = T1 - T0 := by
    rw [htA]
    exact timeSub_eq T1 T0 hmin hmax
  constructor
  · by_cases hty : ty = stackType
    · have hstep1 : step mode (initSt mode)
          ⟨T0, .resourcePre ⟨u, ty, "create", []⟩⟩ =
          .next { initSt mode with
                  timing := setIntMap (initSt mode).timing u T0 } := by
        simp only [step]
        rw [if_pos hty]
      have hstep2 : step mode
          { initSt mode with timing := setIntMap (initSt mode).timing u T0 }
          ⟨T1, .resOutputs ⟨u, ty2, "create", []⟩⟩ =
          printStep
            { initSt mode with timing := setIntMap (initSt mode).timing u T0 }
            { color := .fgGreen, label := "Created", final := true, urn := u,
              duration := msNanos * ((T1 - T0 + 500000) / msNanos) } := by
        simp only [step]
        rw [if_neg (fun hc => hty2 hc.1), hts,
          durationRound_formula (T1 - T0) (by omega) hbound, houts]
      have hpsA := printStep_of_not_seen
        { initSt mode with timing := setIntMap (initSt mode).timing u T0 }
        { color := .fgGreen, label := "Created", final := true, urn := u,
          duration := msNanos * ((T1 - T0 + 500000) / msNanos) } fu rfl hfu
      refine ⟨{ st := { initSt mode with
                        timing := setIntMap (initSt mode).timing u T0,
                        spinEnabled := true,
                        spinActive := false,
                        dedupe := setBoolMap (initSt mode).dedupe
                          (u ++ "Created") true,
                        lines := [OutLine.statusLine
                          { color := .fgGreen, label := "Created",
                            final := true, urn := u,
                            duration := msNanos *
                              ((T1 - T0 + 500000) / msNanos) }] },
                aborted := false, success := true }, [], ?_, ?_⟩
      · unfold progressRun
        simp only [loop, hstep1, hstep2, hpsA]
        rfl
      · rfl
    · have hpre : preProgressOf ⟨u, ty, "create", []⟩ =
          some { color := .fgYellow, label := "Creating", urn := u } := by
        unfold preProgressOf
        rw [if_neg (fun hc => absurd (show ("create" : String) = "same" from hc)
          (by decide)), if_pos rfl]
      have hstep1 : step mode (initSt mode)
          ⟨T0, .resourcePre ⟨u, ty, "create", []⟩⟩ =
          printStep
            { initSt mode with timing := setIntMap (initSt mode).timing u T0 }
            { color := .fgYellow, label := "Creating", urn := u } := by
        simp only [step]
        rw [if_neg hty, hpre]
      have hpsB := printStep_of_not_seen
        { initSt mode with timing := setIntMap (initSt mode).timing u T0 }
        { color := .fgYellow, label := "Creating", urn := u } fu rfl hfu
      have hded2 : (setBoolMap (initSt mode).dedupe (u ++ "Creating") true)
          (u ++ "Created") = false := by
        unfold setBoolMap
        rw [if_neg (fun hc => absurd (strAppend_left_cancel hc) (by decide))]
        rfl
      have hstep2 : step mode
          { initSt mode with
            timing := setIntMap (initSt mode).timing u T0,
            spinEnabled := true,
            dedupe := setBoolMap (initSt mode).dedupe (u ++ "Creating") true,
            lines := (initSt mode).lines ++ [OutLine.statusLine
              { color := .fgYellow, label := "Creating", urn := u }] }
          ⟨T1, .resOutputs ⟨u, ty2, "create", []⟩⟩ =
          printStep
            { initSt mode with
              timing := setIntMap (initSt mode).timing u T0,
              spinEnabled := true,
              dedupe := setBoolMap (initSt mode).dedupe (u ++ "Creating") true,
              lines := (initSt mode).lines ++ [OutLine.statusLine
                { color := .fgYellow, label := "Creating", urn := u }] }
            { color := .fgGreen, label := "Created", final := true, urn := u,
              duration := msNanos * ((T1 - T0 + 500000) / msNanos) } := by
        simp only [step]
        rw [if_neg (fun hc => hty2 hc.1), hts,
          durationRound_formula (T1 - T0) (by omega) hbound, houts]
      have hpsC := printStep_of_not_seen
        { initSt mode with
          timing := setIntMap (initSt mode).timing u T0,
          spinEnabled := true,
          dedupe := setBoolMap (initSt mode).dedupe (u ++ "Creating") true,
          lines := (initSt mode).lines ++ [OutLine.statusLine
            { color := .fgYellow, label := "Creating", urn := u }] }
        { color := .fgGreen, label := "Created", final := true, urn := u,
          duration := msNanos * ((T1 - T0 + 500000) / msNanos) } fu hded2 hfu
      refine ⟨{ st := { initSt mode with
                        timing := setIntMap (initSt mode).timing u T0,
                        spinEnabled := true,
                        spinActive := false,
                        dedupe := setBoolMap
                          (setBoolMap (initSt mode).dedupe
                            (u ++ "Creating") true)
                          (u ++ "Created") true,
                        lines := [OutLine.statusLine
                          { color := .fgYellow, label := "Creating",
                            urn := u },
                          OutLine.statusLine
                          { color := .fgGreen, label := "Created",
                            final := true, urn := u,
                            duration := msNanos *
                              ((T1 - T0 + 500000) / msNanos) }] },
                aborted := false, success := true },
        [OutLine.statusLine
          { color := .fgYellow, label := "Creating", urn := u }], ?_, ?_⟩
      · unfold progressRun
        simp only [loop, hstep1, hpsB, hstep2, hpsC]
        rfl
      · rfl
  · intro T hT0 hT1
    have hts0 : timeSub T ((initSt mode).timing u) = T := by
      show timeSub T 0 = T
      rw [timeSub_eq T 0 (by unfold minDuration; omega)
        (by unfold maxDuration; omega)]
      omega
    have hstep : step mode (initSt mode)
        ⟨T, .resOutputs ⟨u, ty2, "create", []⟩⟩ =
        printStep (initSt mode)
          { color := .fgGreen, label := "Created", final := true, urn := u,
            duration := msNanos * ((T + 500000) / msNanos) } := by
      simp only [step]
      rw [if_neg (fun hc => hty2 hc.1), hts0, durationRound_formula T hT0 hT1,
        houts]
    have hps := printStep_of_not_seen (initSt mode)
      { color := .fgGreen, label := "Created", final := true, urn := u,
        duration := msNanos * ((T + 500000) / msNanos) } fu rfl hfu
    refine ⟨{ st := { initSt mode with
                      spinEnabled := true,
                      spinActive := false,
                      dedupe := setBoolMap (initSt mode).dedupe
                        (u ++ "Created") true,
                      lines := [OutLine.statusLine
                        { color := .fgGreen, label := "Created",
                          final := true, urn := u,
                          duration := msNanos *
                            ((T + 500000) / msNanos) }] },
              aborted := false, success := true }, ?_, ?_⟩
    · unfold progressRun
      simp only [loop, hstep, hps]
      rfl
    · rfl

/-- Witness for `duration_correct`: a create in deploy mode at a well-formed
urn, pre at 0 and outputs at 7000000 ns. -/
theorem duration_correct_witness :
    (("aws:t" : String) ≠ stackType ∧ (0 : Int) < 7000000 ∧
      (7000000 : Int) - 0 ≤ 4611686018427387904 ∧
      formatURN "urn:pulumi:s::p::aws:t::n" = some "aws:t → n") ∧
    ((∃ r rest, progressRun .deploy
        [⟨0, .resourcePre ⟨"urn:pulumi:s::p::aws:t::n", "sst:T", "create", []⟩⟩,
         ⟨7000000, .resOutputs ⟨"urn:pulumi:s::p::aws:t::n", "aws:t", "create", []⟩⟩]
        = some r ∧
      r.st.lines = rest ++ [OutLine.statusLine
        { color := .fgGreen, label := "Created", final := true,
          urn := "urn:pulumi:s::p::aws:t::n",
          duration := msNanos * ((7000000 - 0 + 500000) / msNanos) }]) ∧
    (∀ T : Int, 0 ≤ T → T ≤ 4611686018427387904 →
      ∃ r, progressRun .deploy
          [⟨T, .resOutputs ⟨"urn:pulumi:s::p::aws:t::n", "aws:t", "create", []⟩⟩]
          = some r ∧
        r.st.lines = [OutLine.statusLine
          { color := .fgGreen, label := "Created", final := true,
            urn := "urn:pulumi:s::p::aws:t::n",
            duration := msNanos * ((T + 500000) / msNanos) }])) :=
  ⟨⟨by decide, by decide, by decide, by decide⟩,
   duration_correct .deploy "urn:pulumi:s::p::aws:t::n" "sst:T" "aws:t"
     "aws:t → n" 0 7000000 (by decide) (by decide) (by decide) (by decide)⟩

end IonProgress
